import Mathlib

/-!
Verification of the resfetch request pipeline.

This file shallowly embeds the runtime core of the resfetch repository
(`src/create.ts`, `src/errors.ts`, `src/result.ts`, `src/utils.ts`,
`src/fallback-options.ts` and the `enhance` executor) into Lean and proves
the behavioural claims of the specification against that embedding.
Definitions are translated from the TypeScript source; machine behaviour
such as JS truthiness, object spread, header normalisation and the
`:name\b` regex are modelled explicitly.
-/

set_option maxRecDepth 4096

/-- A small universe of JavaScript runtime values, sufficient for the data
that flows through the pipeline (bodies, query objects, path-param maps). -/
inductive Val where
  | null
  | str (s : String)
  | num (n : Int)
  | boolean (b : Bool)
  | dict (fields : List (String × Option String))
  | other (id : Nat)
deriving DecidableEq, Repr

/-- JS `a || b` on an optional string: `undefined` and the empty string are
falsy, any other string wins. -/
def jsOrStr (a : Option String) (b : String) : String :=
  match a with
  | some s => if s = "" then b else s
  | none => b

/-- JS `a || b` where both sides are optional strings (used for
`currentOptions.method || schemaDef.method` in `create.ts`). -/
def jsOrOptStr (a : Option String) (b : Option String) : Option String :=
  match a with
  | some s => if s = "" then b else some s
  | none => b

-- === Result model (src/result.ts) ===

/-- The runtime shape of a result object `{ ok, data?, error? }` as built by
the constructors in `src/result.ts`.  `none` models an absent/undefined
field. -/
structure RawResult (α ε : Type) where
  ok : Bool
  data : Option α
  error : Option ε
deriving DecidableEq, Repr

/-- `ok(data)` constructor from `src/result.ts`: `{ ok: true, data }`. -/
def ok {α ε : Type} (data : α) : RawResult α ε := ⟨true, some data, none⟩

/-- `err(error)` constructor from `src/result.ts`: `{ ok: false, error }`. -/
def err {α ε : Type} (error : ε) : RawResult α ε := ⟨false, none, some error⟩

-- === Error model (src/errors.ts) ===

/-- A mock HTTP response: only the fields the pipeline inspects. -/
structure MockResponse where
  ok : Bool
  status : Nat
deriving DecidableEq, Repr

/-- `ValidationError` from `src/errors.ts`: carries the schema's issue list
and the raw data value that failed validation. -/
structure ValidationErrorModel (α : Type) where
  issues : List String
  data : α
deriving DecidableEq, Repr

/-- An unknown thrown value reaching the catch-all in `create.ts`: either
something that is an `Error` instance (carrying a message) or a non-Error
value (a raw string, number, ...). -/
inductive UnknownThrown where
  | errObj (message : String) (id : Nat)
  | nonError (id : Nat)
deriving DecidableEq, Repr

/-- The argument object of the `ResponseError` constructor. -/
structure ResponseErrorProps where
  message : Option String
  response : Option MockResponse
  requestId : Option Nat
  data : Option Val
  originalError : Option UnknownThrown
deriving DecidableEq, Repr

/-- `ResponseError` instance fields as set by its constructor. -/
structure ResponseErrorModel where
  message : String
  response : Option MockResponse
  requestId : Option Nat
  data : Option Val
  status : Option Nat
  originalError : Option UnknownThrown
deriving DecidableEq, Repr

/-- The `ResponseError` constructor from `src/errors.ts`:
`message = props.message || (originalError instanceof Error ? its message : '')`,
`status = props.response?.status`, other fields copied. -/
def mkResponseError (props : ResponseErrorProps) : ResponseErrorModel :=
  { message := jsOrStr props.message
      (match props.originalError with
       | some (UnknownThrown.errObj m _) => m
       | _ => "")
    response := props.response
    requestId := props.requestId
    data := props.data
    status := props.response.map (·.status)
    originalError := props.originalError }

/-- The two user-visible error kinds (`ResfetchError` in `src/errors.ts`). -/
inductive FetchErrModel where
  | vErr (e : ValidationErrorModel Val)
  | rErr (e : ResponseErrorModel)
deriving DecidableEq, Repr

/-- A value thrown during execution of the inner fetcher, as discriminated by
`isValidationError` / `isResponseError` / catch-all in `create.ts`. -/
inductive ThrownVal where
  | validation (e : ValidationErrorModel Val)
  | response (e : ResponseErrorModel)
  | unknown (u : UnknownThrown)
deriving DecidableEq, Repr

/-- The catch clause of the fetcher in `create.ts` (lines 114-128):
validation and response errors are returned verbatim, anything else is
wrapped in a fresh `ResponseError` with `originalError` set and `message`
taken from the thrown value when it is an `Error`, else the empty string. -/
def classifyCaught (e : ThrownVal) : FetchErrModel :=
  match e with
  | ThrownVal.validation v => FetchErrModel.vErr v
  | ThrownVal.response r => FetchErrModel.rErr r
  | ThrownVal.unknown u =>
      FetchErrModel.rErr (mkResponseError
        { message := some (match u with
            | UnknownThrown.errObj m _ => m
            | UnknownThrown.nonError _ => "")
          response := none
          requestId := none
          data := none
          originalError := some u })

/-- The result-wrapper boundary of the fetcher in `create.ts`: a completed
execution (`Except.ok`) becomes `ok data`, any thrown value is classified
into a failure result.  Totality of this function is the "never rejects"
property. -/
def resfetchBoundary (outcome : Except ThrownVal Val) : RawResult Val FetchErrModel :=
  match outcome with
  | Except.ok d => ok d
  | Except.error e => err (classifyCaught e)

-- === Validator adapter (validate in src/utils.ts) ===

/-- Outcome of a standard-schema `validate` call: either a (possibly
transformed) output value or a non-empty issue list. -/
inductive ValidationOutcome (β : Type) where
  | value (v : β)
  | failure (issues : List String)
deriving DecidableEq, Repr

/-- `validate` from `src/utils.ts`: runs the schema contract; when issues are
reported it throws a `ValidationError` built from the issue list and the
original input `data`. -/
def validate {α β : Type} (schema : α → ValidationOutcome β) (data : α) :
    Except (ValidationErrorModel α) β :=
  match schema data with
  | ValidationOutcome.value v => Except.ok v
  | ValidationOutcome.failure issues => Except.error ⟨issues, data⟩

-- === Route schema selection (create.ts lines 53-58, 107) ===

/-- A route schema entry (`FetchSchema` in `src/types.ts`): optional
body/response/query/params validators plus an optional method.  The
validator payload type is a parameter so the same definition serves both
opaque schema identifiers and executable validators. -/
structure FetchSchemaModel (σ : Type) where
  body : Option σ
  response : Option σ
  query : Option σ
  params : Option σ
  method : Option String
deriving DecidableEq, Repr

/-- The empty schema `{}` used when neither a global nor a per-call schema
applies. -/
def emptySchemaDef {σ : Type} : FetchSchemaModel σ := ⟨none, none, none, none, none⟩

/-- Schema selection in `create.ts`:
`schemaDef = schema?.schema?.[url] ?? fetcherOptions?.schema ?? {}`. -/
def selectSchemaDef {σ : Type} (table : List (String × FetchSchemaModel σ))
    (url : String) (perCall : Option (FetchSchemaModel σ)) : FetchSchemaModel σ :=
  match table.lookup url with
  | some entry => entry
  | none => perCall.getD emptySchemaDef

-- === Header merging (mergeHeaders in src/utils.ts) ===

/-- A headers object: an ordered association list of (name, value) pairs.
Keys in the *result* of `mergeHeaders` are stored lowercased, mirroring the
normalisation performed by the platform `Headers` class. -/
abbrev Hdr : Type := List (String × String)

/-- ASCII lowercase mapping of one character (header names are ASCII; the
platform `Headers` class lowercases them). -/
def lowerChar : Char → Char
  | 'A' => 'a' | 'B' => 'b' | 'C' => 'c' | 'D' => 'd' | 'E' => 'e' | 'F' => 'f'
  | 'G' => 'g' | 'H' => 'h' | 'I' => 'i' | 'J' => 'j' | 'K' => 'k' | 'L' => 'l'
  | 'M' => 'm' | 'N' => 'n' | 'O' => 'o' | 'P' => 'p' | 'Q' => 'q' | 'R' => 'r'
  | 'S' => 's' | 'T' => 't' | 'U' => 'u' | 'V' => 'v' | 'W' => 'w' | 'X' => 'x'
  | 'Y' => 'y' | 'Z' => 'z' | c => c

/-- Header-name normalisation performed by `new Headers(...)`. -/
def lowerKey (s : String) : String := String.mk (s.data.map lowerChar)

/-- Remove every entry whose key equals `k`. -/
def hRemove : Hdr → String → Hdr
  | [], _ => []
  | p :: t, k => if p.1 = k then hRemove t k else p :: hRemove t k

/-- Process one `(name, value)` pair the way the `forEach` body of
`mergeHeaders` does: values `"null"`/`"undefined"` delete the key, any other
value overwrites it. -/
def applyHeaderEntry (r : Hdr) (e : String × String) : Hdr :=
  let k := lowerKey e.1
  if e.2 = "null" ∨ e.2 = "undefined" then hRemove r k
  else hRemove r k ++ [(k, e.2)]

/-- Fold a single headers init into the accumulated record. -/
def mergeHeadersOne (r : Hdr) (init : Hdr) : Hdr :=
  init.foldl applyHeaderEntry r

/-- `mergeHeaders` from `src/utils.ts`: fold each init (in order) into one
plain record, later entries overwriting earlier ones and the sentinel values
`"null"`/`"undefined"` deleting a key. -/
def mergeHeaders (inits : List Hdr) : Hdr :=
  inits.foldl mergeHeadersOne []

/-- Look a (lowercased) header name up in a headers record: the value of
the first entry with that key. -/
def hLookup : Hdr → String → Option String
  | [], _ => none
  | p :: t, k => if p.1 = k then some p.2 else hLookup t k

/-- The value of the last entry of an init whose lowercased name is `k`, if
any such entry exists (the entry that decides key `k` after the init has
been folded in). -/
def lastVal : Hdr → String → Option String
  | [], _ => none
  | e :: t, k =>
      match lastVal t k with
      | some v => some v
      | none => if lowerKey e.1 = k then some e.2 else none

/-- The effect of a header value on lookup: the sentinels `"null"` and
`"undefined"` delete the key, anything else is stored. -/
def sentinelFilter (v : String) : Option String :=
  if v = "null" ∨ v = "undefined" then none else some v

-- === Body serialization and content-type inference (enhance, fallback-options) ===

/-- The runtime type of a raw request body, as discriminated by
`serializeBody` and the content-type inference in `enhance`. -/
inductive BodyVal where
  | formData
  | str (s : String)
  | obj (id : Nat)
  | arr (id : Nat)
  | withToJSON (id : Nat)
  | blob (id : Nat)
deriving DecidableEq, Repr

/-- `isSerializable` from `src/utils.ts`: plain objects, arrays and objects
with a `toJSON` method. -/
def isSerializable (b : BodyVal) : Bool :=
  match b with
  | BodyVal.obj _ => true
  | BodyVal.arr _ => true
  | BodyVal.withToJSON _ => true
  | _ => false

/-- A serialized body (`BodyInit`): either a string, a passed-through
`FormData`, or some other `BodyInit` (blob, stream, ...). -/
inductive SerializedVal where
  | sStr (s : String)
  | sForm
  | sOther (id : Nat)
deriving DecidableEq, Repr

/-- Abstraction of `JSON.stringify` on a serializable value; the pipeline
only ever inspects that the result is a string. -/
def jsonStringify (b : BodyVal) : String :=
  match b with
  | BodyVal.obj id => "json-obj-" ++ toString id
  | BodyVal.arr id => "json-arr-" ++ toString id
  | BodyVal.withToJSON id => "json-tojson-" ++ toString id
  | BodyVal.str s => s
  | _ => ""

/-- The fallback `serializeBody` from `src/fallback-options.ts`: `FormData`
passes through, serializable values are JSON-stringified, anything else is
passed through as `BodyInit`. -/
def serializeBody (b : BodyVal) : Option SerializedVal :=
  match b with
  | BodyVal.formData => some SerializedVal.sForm
  | b => if isSerializable b
      then some (SerializedVal.sStr (jsonStringify b))
      else match b with
        | BodyVal.str s => some (SerializedVal.sStr s)
        | BodyVal.blob id => some (SerializedVal.sOther id)
        | _ => some (SerializedVal.sOther 0)

/-- `options.body` computation in `enhance` (lines 647-650): a null/undefined
original body is kept as-is, otherwise the configured serializer runs. -/
def computeBody (serialize : BodyVal → Option SerializedVal)
    (originalBody : Option BodyVal) : Option SerializedVal :=
  match originalBody with
  | none => none
  | some b => serialize b

/-- The content-type init prepended in `enhance` (lines 656-663): empty when
the serialized body is null/undefined or the original body is `FormData`;
`content-type: application/json` when the original body is serializable and
it serialized to a string; empty otherwise. -/
def inferredCTInit (originalBody : Option BodyVal) (body : Option SerializedVal) : Hdr :=
  if body = none ∨ originalBody = some BodyVal.formData then ([] : Hdr)
  else if ((match originalBody with
            | some b => isSerializable b
            | none => false)
          && (match body with
              | some (SerializedVal.sStr _) => true
              | _ => false)) = true
    then ([("content-type", "application/json")] : Hdr)
    else ([] : Hdr)

/-- The full `options.headers` computation in `enhance` (lines 656-666):
`mergeHeaders([inferred, defaultOpts.headers, fetcherOpts.headers])`. -/
def buildHeaders (originalBody : Option BodyVal) (body : Option SerializedVal)
    (defaultHeaders fetcherHeaders : Hdr) : Hdr :=
  mergeHeaders [inferredCTInit originalBody body, defaultHeaders, fetcherHeaders]

-- === Path-parameter substitution (replacePathParams in src/utils.ts) ===

/-- JS regex word character (`\w` = `[A-Za-z0-9_]`), governing the `\b`
boundary after a `:name` token. -/
def wordChar (c : Char) : Bool := c.isAlphanum || c = '_'

/-- Whether `k` is a leading run of `s`. -/
def begins : List Char → List Char → Bool
  | [], _ => true
  | _ :: _, [] => false
  | a :: as, b :: bs => a == b && begins as bs

/-- The JS `\b` assertion at the position right after the token `:k`:
matches when exactly one of the two neighbouring characters is a word
character.  The character to the left is the last character of `k` (or the
non-word `:` when `k` is empty); `rest` is the text to the right. -/
def boundaryAfter (k : List Char) (rest : List Char) : Bool :=
  let leftWord := match k.getLast? with
    | some c => wordChar c
    | none => false
  let rightWord := match rest with
    | [] => false
    | c :: _ => wordChar c
  leftWord != rightWord

/-- Fuel-driven worker for the global regex replace
`path.replace(new RegExp(":key\b", "g"), value)`: scan left to right; at a
match consume `:key` and emit the value, otherwise move one character. -/
def replaceTokenGo (k v : List Char) : Nat → List Char → List Char
  | _, [] => []
  | 0, s => s
  | fuel + 1, c :: s =>
      if c = ':' ∧ begins k s = true ∧ boundaryAfter k (s.drop k.length) = true then
        v ++ replaceTokenGo k v fuel (s.drop k.length)
      else
        c :: replaceTokenGo k v fuel s

/-- One `newPath.replace(new RegExp(":key\b", "g"), String(value))` step. -/
def replaceToken (k v s : List Char) : List Char :=
  replaceTokenGo k v s.length s

/-- `replacePathParams` from `src/utils.ts` on an entry list (the
`Object.entries` of the params object, in insertion order): entries whose
value is `null`/`undefined` are skipped, every other entry rewrites all
current occurrences of its token. -/
def replacePathParams (path : List Char) (params : List (String × Option String)) :
    List Char :=
  params.foldl
    (fun p kv =>
      match kv.2 with
      | none => p
      | some v => replaceToken kv.1.data v.data p)
    path

/-- The `isPlainObject` guard of `replacePathParams`: a non-object params
value leaves the path untouched. -/
def replacePathParamsVal (path : String) (params : Option Val) : String :=
  match params with
  | some (Val.dict fields) => String.mk (replacePathParams path.data fields)
  | _ => path

/-- Whether the text contains an occurrence of the token `:k` followed by a
word boundary (the match condition of `replaceTokenGo`). -/
def hasToken (k : List Char) : List Char → Bool
  | [] => false
  | c :: s =>
      (c = ':' ∧ begins k s = true ∧ boundaryAfter k (s.drop k.length) = true) ||
      hasToken k s

-- === Retry loop (enhance, src/enhance.ts lines 668-730) ===

/-- Outcome of one transport invocation: a response, or a thrown error
(identified by a numeric payload). -/
inductive TransportOutcome where
  | resp (r : MockResponse)
  | thrown (e : Nat)
deriving DecidableEq, Repr

/-- The mutable frame of the do/while retry loop in `enhance`: number of
transport invocations so far, the `attempt` counter, the `response` and
`error` variables, and how many times each of the two registered `onRetry`
hooks (default-options and per-call) has fired. -/
structure LoopState where
  invocations : Nat
  attempt : Nat
  response : Option MockResponse
  error : Option Nat
  retriesGlobal : Nat
  retriesLocal : Nat
deriving DecidableEq, Repr

/-- One transport call inside the loop's `try`: on success the `response`
variable is overwritten and `error` is cleared; on a throw only `error` is
set — the stale `response` from an earlier attempt is kept. -/
def stepOnce (transport : Nat → TransportOutcome) (st : LoopState) : LoopState :=
  match transport (st.invocations + 1) with
  | TransportOutcome.resp r =>
      { st with invocations := st.invocations + 1, response := some r, error := none }
  | TransportOutcome.thrown e =>
      { st with invocations := st.invocations + 1, error := some e }

/-- The do/while loop of `enhance`: perform an attempt, then
`if (!(await retry.when({...})) || ++attempt > attempts) break;` else wait
the delay, fire both `onRetry` hooks and loop.  `gas` is an upper bound on
the number of iterations; `attempts + 1` always suffices because every
continuation increments `attempt` and the loop breaks once
`attempt > attempts`. -/
def enhanceRetryLoop (transport : Nat → TransportOutcome)
    (when : Option MockResponse → Option Nat → Bool) (attempts : Nat) :
    Nat → LoopState → LoopState
  | 0, st => st
  | gas + 1, st =>
      let st1 := stepOnce transport st
      if when st1.response st1.error = false then st1
      else if st1.attempt + 1 > attempts then { st1 with attempt := st1.attempt + 1 }
      else enhanceRetryLoop transport when attempts gas
        { st1 with
          attempt := st1.attempt + 1
          retriesGlobal := st1.retriesGlobal + 1
          retriesLocal := st1.retriesLocal + 1 }

/-- Initial loop frame: `attempt = 0`, no response, no error. -/
def initLoopState : LoopState := ⟨0, 0, none, none, 0, 0⟩

/-- Run the retry loop of one call to completion. -/
def runEnhanceLoop (transport : Nat → TransportOutcome)
    (when : Option MockResponse → Option Nat → Bool) (attempts : Nat) : LoopState :=
  enhanceRetryLoop transport when attempts (attempts + 1) initLoopState

/-- The default retry predicate from `src/fallback-options.ts`:
`ctx => ctx.response?.ok === false` — strict equality with `false`, so an
undefined response compares unequal and yields `false`. -/
def fallbackRetryWhen (response : Option MockResponse) (_error : Option Nat) : Bool :=
  match response with
  | some r => !r.ok
  | none => false

/-- The default reject predicate from `src/fallback-options.ts`:
`response => !response?.ok` — an undefined response is rejected. -/
def fallbackReject (response : Option MockResponse) : Bool :=
  match response with
  | some r => !r.ok
  | none => true

/-- Terminal classification after the loop (enhance lines 732-749): a set
`error` is thrown; otherwise a rejected response becomes the parsed
rejection error; otherwise the call succeeds. -/
inductive CallOutcome where
  | success (response : Option MockResponse)
  | rejected (response : Option MockResponse)
  | failed (e : Nat)
deriving DecidableEq, Repr

/-- Classify the final loop frame using the default reject predicate. -/
def classifyLoop (st : LoopState) : CallOutcome :=
  match st.error with
  | some e => CallOutcome.failed e
  | none =>
      if fallbackReject st.response then CallOutcome.rejected st.response
      else CallOutcome.success st.response

-- === Cancellation-signal wiring (withTimeout, abortableDelay call sites) ===

/-- The distinct abort sources of one call: the caller-supplied signal's
triggers, and the fresh `AbortSignal.timeout` created for a given attempt. -/
inductive AbortSource where
  | caller (id : Nat)
  | timeoutAt (attempt : Nat)
deriving DecidableEq, Repr

/-- The `timeout ? AbortSignal.timeout(timeout) : undefined` expression in
`withTimeout` (`src/utils.ts`), instantiated for the attempt that creates
it; `0` is falsy and produces no signal. -/
def mkTimeoutSignal (attempt : Nat) (timeout : Option Nat) : Option (List AbortSource) :=
  match timeout with
  | some t => if t = 0 then none else some [AbortSource.timeoutAt attempt]
  | none => none

/-- `withTimeout` from `src/utils.ts`: when `AbortSignal.any` is available
it combines the caller signal and the per-attempt timeout signal (a signal
that fires when either of its inputs fires); otherwise the caller signal is
returned unmodified. -/
def withTimeout (hasAny : Bool) (signal : Option (List AbortSource))
    (tsig : Option (List AbortSource)) : Option (List AbortSource) :=
  if hasAny then some (([signal, tsig].filterMap id).flatten) else signal

/-- `options.signal` as recomputed at the top of every loop iteration
(enhance line 675): `withTimeout(fetcherOpts?.signal, options.timeout)`. -/
def attemptSignal (hasAny : Bool) (callerSig : Option (List AbortSource))
    (timeout : Option Nat) (attempt : Nat) : Option (List AbortSource) :=
  withTimeout hasAny callerSig (mkTimeoutSignal attempt timeout)

/-- The signal bound to the attempt's transport request (the `Request` is
constructed from `options`, whose `signal` field was just set). -/
def requestSignal (hasAny : Bool) (callerSig : Option (List AbortSource))
    (timeout : Option Nat) (attempt : Nat) : Option (List AbortSource) :=
  attemptSignal hasAny callerSig timeout attempt

/-- The signal handed to `abortableDelay` for the retry pause (enhance line
721 passes `options.signal`). -/
def delaySignal (hasAny : Bool) (callerSig : Option (List AbortSource))
    (timeout : Option Nat) (attempt : Nat) : Option (List AbortSource) :=
  attemptSignal hasAny callerSig timeout attempt

/-- The abort sources a (possibly absent) signal listens to. -/
def triggers (s : Option (List AbortSource)) : List AbortSource := s.getD []

-- === The fetcher pipeline (create.ts lines 49-129 + enhance option setup) ===

/-- An executable schema for pipeline-level validation. -/
abbrev SchemaFun : Type := Val → ValidationOutcome Val

/-- JS truthiness on a runtime value (guards like
`schemaDef.body && currentOptions.body`). -/
def valTruthy (v : Val) : Bool :=
  match v with
  | Val.null => false
  | Val.str s => !(s = "")
  | Val.num n => !(n = 0)
  | Val.boolean b => b
  | Val.dict _ => true
  | Val.other _ => true

/-- A `retry` options object (`RetryOptions`): fields are optional, `none`
models an absent key. -/
structure RetryOptsModel where
  attempts : Option Nat
  delay : Option Nat
  whenId : Option Nat
deriving DecidableEq, Repr

/-- JS object spread on an optional field: a key present in the later
object wins. -/
def optOr {α : Type} (later earlier : Option α) : Option α :=
  match later with
  | some x => some x
  | none => earlier

/-- The nested retry merge in `enhance`:
`{ ...fallbackOptions.retry, ...defaultOpts.retry, ...fetcherOpts?.retry }`
(fallback: `attempts: 0, delay: 0, when: default`). -/
def mergeRetry (defaultsRetry fetcherRetry : Option RetryOptsModel) : RetryOptsModel :=
  let step (acc : RetryOptsModel) (o : Option RetryOptsModel) : RetryOptsModel :=
    match o with
    | none => acc
    | some r =>
        { attempts := optOr r.attempts acc.attempts
          delay := optOr r.delay acc.delay
          whenId := optOr r.whenId acc.whenId }
  step (step ⟨some 0, some 0, some 0⟩ defaultsRetry) fetcherRetry

/-- The caller-supplied per-call options object (`ResfetchOptions`). -/
structure CallerOptsModel where
  body : Option Val
  query : Option Val
  params : Option Val
  headers : Hdr
  method : Option String
  timeout : Option Nat
  signal : Option (List AbortSource)
  retry : Option RetryOptsModel
  schema : Option (FetchSchemaModel SchemaFun)

/-- The base options captured at client creation (`CreateResfetchOption`
minus `schema`/`fetch`). -/
structure DefaultsModel where
  headers : Hdr
  timeout : Option Nat
  retry : Option RetryOptsModel

/-- View of a runtime value as a raw request body. -/
def valToBodyVal (v : Val) : BodyVal :=
  match v with
  | Val.str s => BodyVal.str s
  | Val.dict _ => BodyVal.obj 0
  | Val.num _ => BodyVal.blob 1
  | Val.boolean _ => BodyVal.blob 2
  | Val.null => BodyVal.blob 3
  | Val.other id => BodyVal.withToJSON id

/-- The default `parseResponse` viewed abstractly: some parsed value
derived from the response. -/
def parseResponseModel (r : Option MockResponse) : Val :=
  match r with
  | some resp => Val.num resp.status
  | none => Val.null

/-- The default `parseRejected` from `src/fallback-options.ts`: a
`ResponseError` built from the response (message from status when a
response exists, else empty). -/
def parseRejectedModel (r : Option MockResponse) : ResponseErrorModel :=
  mkResponseError
    { message := some (match r with
        | some resp => "[" ++ toString resp.status ++ "]"
        | none => "")
      response := r
      requestId := some 0
      data := some (parseResponseModel r)
      originalError := none }

/-- Everything the inner fetcher of `createResfetch` plus `enhance` does to
one call, up to the value returned by `enhancedFetch` or the value it
throws.  Mirrors `create.ts` lines 60-111: clone the caller options,
validate body/query/params against the selected schema, substitute path
params, then run the enhance executor (merged options, serialized body,
merged headers, retry loop, reject classification, response validation). -/
def fetcherOutcome (table : List (String × FetchSchemaModel SchemaFun)) (url : String)
    (caller : CallerOptsModel) (defaults : DefaultsModel)
    (transport : Nat → TransportOutcome) : Except ThrownVal Val :=
  let schemaDef := selectSchemaDef table url caller.schema
  -- `const currentOptions = { ...fetcherOptions }` — a fresh shallow clone;
  -- every later write below targets this clone, never `caller`.
  let current0 := caller
  match (match schemaDef.body, current0.body with
         | some sch, some b =>
             if valTruthy b then
               match validate sch b with
               | Except.ok v => Except.ok { current0 with body := some v }
               | Except.error e => Except.error (ThrownVal.validation e)
             else Except.ok current0
         | _, _ => Except.ok current0 : Except ThrownVal CallerOptsModel) with
  | Except.error e => Except.error e
  | Except.ok current1 =>
  match (match schemaDef.query, current1.query with
         | some sch, some q =>
             if valTruthy q then
               match validate sch q with
               | Except.ok v => Except.ok { current1 with query := some v }
               | Except.error e => Except.error (ThrownVal.validation e)
             else Except.ok current1
         | _, _ => Except.ok current1 : Except ThrownVal CallerOptsModel) with
  | Except.error e => Except.error e
  | Except.ok current2 =>
  match (match schemaDef.params, current2.params with
         | some sch, some p =>
             if valTruthy p then
               match validate sch p with
               | Except.ok v => Except.ok { current2 with params := some v }
               | Except.error e => Except.error (ThrownVal.validation e)
             else Except.ok current2
         | _, _ => Except.ok current2 : Except ThrownVal CallerOptsModel) with
  | Except.error e => Except.error e
  | Except.ok current3 =>
  let _actualUrl := replacePathParamsVal url current3.params
  let _method := jsOrOptStr current3.method schemaDef.method
  -- enhance: merged options (fallback, defaults, fetcher opts; nested retry)
  let mergedRetry := mergeRetry defaults.retry caller.retry
  let mergedTimeout := optOr caller.timeout defaults.timeout
  let originalBody := current3.body.map valToBodyVal
  let serialized := computeBody serializeBody originalBody
  let _headers := buildHeaders originalBody serialized defaults.headers caller.headers
  let _signal := attemptSignal true caller.signal mergedTimeout 1
  let final := runEnhanceLoop transport fallbackRetryWhen (mergedRetry.attempts.getD 0)
  match classifyLoop final with
  | CallOutcome.failed e => Except.error (ThrownVal.unknown (UnknownThrown.nonError e))
  | CallOutcome.rejected r => Except.error (ThrownVal.response (parseRejectedModel r))
  | CallOutcome.success r =>
      let parsed := parseResponseModel r
      match schemaDef.response with
      | some sch =>
          match validate sch parsed with
          | Except.ok v => Except.ok v
          | Except.error e => Except.error (ThrownVal.validation e)
      | none => Except.ok parsed

/-- One full call through the public surface: run the pipeline, convert the
outcome at the result-wrapper boundary, and hand back the caller's options
object and the base options exactly as the code leaves them (it only ever
writes to its internal clones). -/
def fetcherRun (table : List (String × FetchSchemaModel SchemaFun)) (url : String)
    (caller : CallerOptsModel) (defaults : DefaultsModel)
    (transport : Nat → TransportOutcome) :
    RawResult Val FetchErrModel × CallerOptsModel × DefaultsModel :=
  (resfetchBoundary (fetcherOutcome table url caller defaults transport), caller, defaults)

/-- The result-shape invariant of `ResfetchResult`: `ok` is the
discriminant, exactly one of `data`/`error` is present. -/
def wellFormedResult {α ε : Type} (r : RawResult α ε) : Prop :=
  (r.ok = true ∧ r.data.isSome = true ∧ r.error = none) ∨
  (r.ok = false ∧ r.error.isSome = true ∧ r.data = none)

-- === Structured paths for the substitution theorem ===

/-- A path decomposed into literal chunks and `:name` tokens. -/
inductive PathPiece where
  | lit (s : List Char)
  | tok (name : List Char)
deriving DecidableEq, Repr

/-- Render one piece back to text: a token renders as `:name`. -/
def renderPiece : PathPiece → List Char
  | PathPiece.lit s => s
  | PathPiece.tok n => ':' :: n

/-- Render a decomposed path back to the raw path string. -/
def renderPath (ps : List PathPiece) : List Char :=
  (ps.map renderPiece).flatten

/-- The value an entry list assigns to a parameter name: the first entry
with that key and a non-null value (entries with `null`/`undefined` values
are skipped by the loop in `replacePathParams`). -/
def lookupParam : List (String × Option String) → List Char → Option String
  | [], _ => none
  | (k, some v) :: rest, n => if k.data = n then some v else lookupParam rest n
  | (_, none) :: rest, n => lookupParam rest n

/-- Simultaneous per-token substitution: a token whose name has a non-null
entry becomes its value as literal text, every other piece is unchanged. -/
def substPiece (params : List (String × Option String)) (p : PathPiece) : PathPiece :=
  match p with
  | PathPiece.lit s => PathPiece.lit s
  | PathPiece.tok n =>
      match lookupParam params n with
      | some v => PathPiece.lit v.data
      | none => PathPiece.tok n

/-- Substitution of a single key: the effect of one `replace` call at the
piece level. -/
def substTok (k v : List Char) (p : PathPiece) : PathPiece :=
  match p with
  | PathPiece.lit s => PathPiece.lit s
  | PathPiece.tok n => if n = k then PathPiece.lit v else PathPiece.tok n

/-- Whether the rendering of `ps` is empty or starts with a non-word
character (so that a token ending right before `ps` keeps its `\b`
boundary). -/
def startsNonWordOrEnd : List PathPiece → Bool
  | [] => true
  | PathPiece.lit [] :: _ => false
  | PathPiece.lit (c :: _) :: _ => !wordChar c
  | PathPiece.tok _ :: _ => false

/-- Well-formed decomposed path: literal chunks contain no `:`, token names
are non-empty runs of word characters, and each token is followed by the
end of the path or by a literal starting with a non-word character. -/
def piecesWF : List PathPiece → Bool
  | [] => true
  | PathPiece.lit s :: r => decide (':' ∉ s) && piecesWF r
  | PathPiece.tok n :: r =>
      decide (n ≠ []) && n.all wordChar && startsNonWordOrEnd r && piecesWF r

-- === Concrete transports for the retry-loop claims ===

/-- A transport that fails the first `N` invocations with an HTTP 500
response and succeeds with an HTTP 200 response afterwards. -/
def failNTransport (N : Nat) : Nat → TransportOutcome :=
  fun i => if i ≤ N then TransportOutcome.resp ⟨false, 500⟩
           else TransportOutcome.resp ⟨true, 200⟩

/-- A transport whose first invocation yields a non-ok response, whose
second invocation throws, and which succeeds afterwards. -/
def staleTransport : Nat → TransportOutcome :=
  fun i =>
    if i = 1 then TransportOutcome.resp ⟨false, 500⟩
    else if i = 2 then TransportOutcome.thrown 42
    else TransportOutcome.resp ⟨true, 200⟩

/-- Whether a transport invocation counts as a failed attempt: a thrown
error, or a completed response that is not ok. -/
def attemptFails : TransportOutcome → Bool
  | TransportOutcome.resp r => !r.ok
  | TransportOutcome.thrown _ => true

-- ===================================================================
-- Theorems
-- ===================================================================

-- --- Helper lemmas ---

/-- The triggers of a combined signal are the union of the triggers of its
inputs. -/
theorem triggers_withTimeout (s t : Option (List AbortSource)) :
    triggers (withTimeout true s t) = triggers s ++ triggers t := by
  cases s <;> cases t <;> simp [withTimeout, triggers]

/-- Boundary-converted results always satisfy the result-shape invariant. -/
theorem wellFormed_resfetchBoundary (outcome : Except ThrownVal Val) :
    wellFormedResult (resfetchBoundary outcome) := by
  cases outcome with
  | ok d => left; simp [resfetchBoundary, ok, wellFormedResult]
  | error e => right; simp [resfetchBoundary, err, wellFormedResult]

-- --- C1 ---

/-- C1: every call through the public surface resolves to a result and never
rejects: the boundary is a total function into results; a completed
execution yields `ok data`; a thrown `ValidationError` or `ResponseError`
is returned verbatim as the failure's error; any other thrown value `v`
becomes a fresh `ResponseError` whose `originalError` is `v` and whose
`message` is `v`'s message when `v` is an `Error`, else the empty string
(and which carries no response/status/data). -/
theorem c1_boundary_wraps_all_errors :
    (∀ d : Val, resfetchBoundary (Except.ok d) = ok d) ∧
    (∀ v, resfetchBoundary (Except.error (ThrownVal.validation v)) =
      err (FetchErrModel.vErr v)) ∧
    (∀ r, resfetchBoundary (Except.error (ThrownVal.response r)) =
      err (FetchErrModel.rErr r)) ∧
    (∀ u, ∃ re, resfetchBoundary (Except.error (ThrownVal.unknown u)) =
        err (FetchErrModel.rErr re) ∧
      re.originalError = some u ∧
      re.message = (match u with
        | UnknownThrown.errObj m _ => m
        | UnknownThrown.nonError _ => "") ∧
      re.status = none ∧ re.response = none ∧ re.data = none) := by
  refine ⟨fun d => rfl, fun v => rfl, fun r => rfl, fun u => ?_⟩
  refine ⟨mkResponseError
    { message := some (match u with
        | UnknownThrown.errObj m _ => m
        | UnknownThrown.nonError _ => "")
      response := none
      requestId := none
      data := none
      originalError := some u }, rfl, rfl, ?_, rfl, rfl, rfl⟩
  cases u with
  | errObj m id =>
      by_cases hm : m = "" <;> simp [mkResponseError, jsOrStr, hm]
  | nonError id => simp [mkResponseError, jsOrStr]

-- --- C2 ---

/-- C2: every result value has exactly one of `data`/`error` defined with
`ok` as the discriminant; the constructors `ok`/`err` establish this shape
for every input, and so does everything the public call surface returns
(`fetcherRun` results pass through the boundary; the embedding is pure, so
no operation mutates a result after construction). -/
theorem c2_result_shape {α ε : Type} (d : α) (e : ε)
    (outcome : Except ThrownVal Val) :
    wellFormedResult (ok (ε := ε) d) ∧
    wellFormedResult (err (α := α) e) ∧
    wellFormedResult (resfetchBoundary outcome) ∧
    (∀ table url caller defaults transport,
      wellFormedResult (fetcherRun table url caller defaults transport).1) := by
  refine ⟨?_, ?_, wellFormed_resfetchBoundary outcome, ?_⟩
  · left; simp [ok, wellFormedResult]
  · right; simp [err, wellFormedResult]
  · intro table url caller defaults transport
    exact wellFormed_resfetchBoundary _

-- --- C8 ---

/-- C8: whenever validation reports issues, the resulting `ValidationError`
carries the exact original input as its `data` field (not the schema's
output) and the schema's reported issue list as its `issues` field. -/
theorem c8_validation_error_carries_input {α β : Type}
    (schema : α → ValidationOutcome β) (data : α) (e : ValidationErrorModel α)
    (h : validate schema data = Except.error e) :
    e.data = data ∧ schema data = ValidationOutcome.failure e.issues := by
  unfold validate at h
  cases hs : schema data with
  | value v => rw [hs] at h; cases h
  | failure issues =>
      rw [hs] at h
      cases h
      exact ⟨rfl, rfl⟩

/-- Witness for C8 at a concrete failing schema and input. -/
theorem c8_witness :
    (⟨["expected string"], (5 : Nat)⟩ : ValidationErrorModel Nat).data = 5 ∧
    (fun _ : Nat => ValidationOutcome.failure (β := Nat) ["expected string"]) 5 =
      ValidationOutcome.failure (⟨["expected string"], (5 : Nat)⟩ :
        ValidationErrorModel Nat).issues :=
  c8_validation_error_carries_input
    (fun _ : Nat => ValidationOutcome.failure (β := Nat) ["expected string"])
    5 ⟨["expected string"], 5⟩ rfl

-- --- C6 ---

/-- C6: when the call URL is a key of the global route schema table, the
schema used is the route entry and any per-call schema is ignored (the
selection result does not depend on it), including for method defaulting;
when the URL is not in the table, the per-call schema (or the empty schema)
is used. -/
theorem c6_route_schema_precedence {σ : Type} (table : List (String × FetchSchemaModel σ))
    (url : String) (entry : FetchSchemaModel σ)
    (perCall perCall₂ : Option (FetchSchemaModel σ)) :
    (table.lookup url = some entry →
      selectSchemaDef table url perCall = entry ∧
      selectSchemaDef table url perCall = selectSchemaDef table url perCall₂ ∧
      jsOrOptStr none (selectSchemaDef table url perCall).method = entry.method) ∧
    (table.lookup url = none →
      selectSchemaDef table url perCall = perCall.getD emptySchemaDef) := by
  constructor
  · intro h
    refine ⟨by simp [selectSchemaDef, h], by simp [selectSchemaDef, h], ?_⟩
    simp [selectSchemaDef, h, jsOrOptStr]
  · intro h
    simp [selectSchemaDef, h]

/-- Witness for C6: a one-route table where the per-call schema differs from
the route entry yet the route entry is selected, and an unknown URL where
the per-call schema is used. -/
theorem c6_witness :
    (selectSchemaDef [("/users", (⟨some 1, some 2, none, none, some "POST"⟩ :
        FetchSchemaModel Nat))] "/users"
        (some ⟨some 9, none, none, none, some "PUT"⟩) =
      ⟨some 1, some 2, none, none, some "POST"⟩) ∧
    (selectSchemaDef [("/users", (⟨some 1, some 2, none, none, some "POST"⟩ :
        FetchSchemaModel Nat))] "/other"
        (some ⟨some 9, none, none, none, some "PUT"⟩) =
      ⟨some 9, none, none, none, some "PUT"⟩) := by
  constructor
  · exact ((c6_route_schema_precedence _ "/users" _ (some ⟨some 9, none, none, none, some "PUT"⟩)
      none).1 (by decide)).1
  · exact (c6_route_schema_precedence
      [("/users", (⟨some 1, some 2, none, none, some "POST"⟩ : FetchSchemaModel Nat))]
      "/other" ⟨some 1, some 2, none, none, some "POST"⟩
      (some ⟨some 9, none, none, none, some "PUT"⟩) none).2 (by decide)

-- --- C10 ---

/-- C10: a call never mutates the caller-supplied options object or the base
options captured at client creation: the pipeline writes validated values,
the serialized body, merged headers and the combined signal only to its
internal clone and merged-options record, and hands the caller's options
and the defaults back exactly as received. -/
theorem c10_no_mutation_of_options (table : List (String × FetchSchemaModel SchemaFun))
    (url : String) (caller : CallerOptsModel) (defaults : DefaultsModel)
    (transport : Nat → TransportOutcome) :
    (fetcherRun table url caller defaults transport).2.1 = caller ∧
    (fetcherRun table url caller defaults transport).2.2 = defaults :=
  ⟨rfl, rfl⟩

-- --- C9 (corrected) ---

/-- C9 counterexample: under the default retry predicate, a throwing attempt
is *not* always final.  With `staleTransport` (non-ok response, then a
throw, then success) and `attempts = 5`, the loop retries after the
throwing second invocation — the `response` variable still holds the stale
non-ok response of attempt 1, so `response?.ok === false` is true — and the
transport is invoked a third time, ending in success rather than in the
thrown error terminating the call after two invocations as the claim
states. -/
theorem c9_counterexample :
    staleTransport 2 = TransportOutcome.thrown 42 ∧
    (runEnhanceLoop staleTransport fallbackRetryWhen 5).invocations = 3 ∧
    (runEnhanceLoop staleTransport fallbackRetryWhen 5).error = none ∧
    classifyLoop (runEnhanceLoop staleTransport fallbackRetryWhen 5) =
      CallOutcome.success (some ⟨true, 200⟩) ∧
    ¬ ((runEnhanceLoop staleTransport fallbackRetryWhen 5).invocations = 2 ∧
       classifyLoop (runEnhanceLoop staleTransport fallbackRetryWhen 5) =
         CallOutcome.failed 42) := by
  decide

/-- C9 amended: under the default retry predicate, a throwing attempt is
never retried *provided no earlier attempt of the same call produced a
response* (in particular on the first attempt, where the `response`
variable is still undefined): the predicate is false, the loop exits after
that single invocation with no retry events, and the thrown transport error
becomes the terminal error.  (When an earlier attempt did produce a non-ok
response, the stale response makes the predicate true and the throwing
attempt is retried — see the counterexample.) -/
theorem c9_amended_throw_without_response_not_retried
    (t : Nat → TransportOutcome) (attempts e : Nat)
    (h : t 1 = TransportOutcome.thrown e) :
    runEnhanceLoop t fallbackRetryWhen attempts = ⟨1, 0, none, some e, 0, 0⟩ ∧
    classifyLoop (runEnhanceLoop t fallbackRetryWhen attempts) =
      CallOutcome.failed e := by
  have hloop : runEnhanceLoop t fallbackRetryWhen attempts = ⟨1, 0, none, some e, 0, 0⟩ := by
    unfold runEnhanceLoop
    simp [enhanceRetryLoop, stepOnce, initLoopState, h, fallbackRetryWhen]
  exact ⟨hloop, by rw [hloop]; rfl⟩

/-- Witness for the amended C9 at a concrete always-throwing transport and a
large attempt budget. -/
theorem c9_amended_witness :
    runEnhanceLoop (fun _ => TransportOutcome.thrown 9) fallbackRetryWhen 7 =
      ⟨1, 0, none, some 9, 0, 0⟩ ∧
    classifyLoop (runEnhanceLoop (fun _ => TransportOutcome.thrown 9)
      fallbackRetryWhen 7) = CallOutcome.failed 9 :=
  c9_amended_throw_without_response_not_retried (fun _ => TransportOutcome.thrown 9) 7 9 rfl

-- --- C4 (corrected) ---

/-- C4 counterexample: the retry delay is *not* tied to the caller signal
alone.  `abortableDelay` receives `options.signal`, which `withTimeout`
has set to the combination of the caller signal and the per-attempt timeout
signal; with a configured timeout of 5ms the timeout source is among the
triggers of the delay's signal, so an expiring timeout can abort a pending
retry delay, contrary to the claim. -/
theorem c4_counterexample :
    AbortSource.timeoutAt 1 ∈
      triggers (delaySignal true (some [AbortSource.caller 0]) (some 5) 1) ∧
    delaySignal true (some [AbortSource.caller 0]) (some 5) 1 =
      requestSignal true (some [AbortSource.caller 0]) (some 5) 1 ∧
    ¬ (triggers (delaySignal true (some [AbortSource.caller 0]) (some 5) 1) =
       [AbortSource.caller 0]) := by
  decide

/-- C4 amended: the retry delay waits on the *same* combined per-attempt
signal as the transport request — the caller's abort signal cancels both
the in-flight transport call and a pending retry delay, and a configured
non-zero timeout is also wired into the delay's signal (so its expiry can
abort the pending delay as well); the timeout source is re-armed per
attempt: a timeout source of another attempt is never wired in. -/
theorem c4_amended_delay_signal_wiring (callerSig : Option (List AbortSource))
    (timeout : Option Nat) (t attempt a : Nat) (src : AbortSource) :
    (delaySignal true callerSig timeout attempt =
      requestSignal true callerSig timeout attempt) ∧
    (src ∈ triggers callerSig →
      src ∈ triggers (delaySignal true callerSig timeout attempt)) ∧
    (timeout = some t → t ≠ 0 →
      AbortSource.timeoutAt attempt ∈
        triggers (delaySignal true callerSig timeout attempt)) ∧
    (AbortSource.timeoutAt a ∈ triggers (delaySignal true callerSig timeout attempt) →
      AbortSource.timeoutAt a ∈ triggers callerSig ∨ a = attempt) := by
  refine ⟨rfl, ?_, ?_, ?_⟩
  · intro hsrc
    simp only [delaySignal, attemptSignal, triggers_withTimeout, List.mem_append]
    exact Or.inl hsrc
  · intro ht ht0
    simp only [delaySignal, attemptSignal, triggers_withTimeout, List.mem_append, ht,
      mkTimeoutSignal]
    right
    simp [triggers, ht0]
  · intro hmem
    simp only [delaySignal, attemptSignal, triggers_withTimeout, List.mem_append] at hmem
    rcases hmem with hc | htm
    · exact Or.inl hc
    · right
      cases timeout with
      | none => simp [mkTimeoutSignal, triggers] at htm
      | some t0 =>
          by_cases h0 : t0 = 0
          · simp [mkTimeoutSignal, h0, triggers] at htm
          · simp [mkTimeoutSignal, h0, triggers] at htm
            exact htm

/-- Witness for the amended C4 at a concrete configuration. -/
theorem c4_amended_witness :
    (delaySignal true (some [AbortSource.caller 3]) (some 10) 2 =
      requestSignal true (some [AbortSource.caller 3]) (some 10) 2) ∧
    AbortSource.caller 3 ∈
      triggers (delaySignal true (some [AbortSource.caller 3]) (some 10) 2) ∧
    AbortSource.timeoutAt 2 ∈
      triggers (delaySignal true (some [AbortSource.caller 3]) (some 10) 2) := by
  have h := c4_amended_delay_signal_wiring (some [AbortSource.caller 3]) (some 10) 10 2 2
    (AbortSource.caller 3)
  exact ⟨h.1, h.2.1 (by decide), h.2.2.1 rfl (by decide)⟩

-- --- C3 ---

/-- One unfolding step of the retry loop. -/
theorem enhanceRetryLoop_succ (t : Nat → TransportOutcome)
    (when : Option MockResponse → Option Nat → Bool) (attempts gas : Nat)
    (st : LoopState) :
    enhanceRetryLoop t when attempts (gas + 1) st =
      (let st1 := stepOnce t st
       if when st1.response st1.error = false then st1
       else if st1.attempt + 1 > attempts then { st1 with attempt := st1.attempt + 1 }
       else enhanceRetryLoop t when attempts gas
         { st1 with
           attempt := st1.attempt + 1
           retriesGlobal := st1.retriesGlobal + 1
           retriesLocal := st1.retriesLocal + 1 }) := rfl

/-- Invariant of the retry loop for any transport whose remaining failing
invocations are followed by a success, and any retry predicate that holds
on failed-attempt contexts (a thrown error with whatever response is
staled, or a completed non-ok response): from the frame reached after the
`j`-th retry (incoming response/error values are irrelevant — the next
attempt overwrites them), the loop ends with `N + 1` invocations, `N`
retry events for each hook, the successful response and no error. -/
theorem c3_loop_invariant (t : Nat → TransportOutcome)
    (when : Option MockResponse → Option Nat → Bool) (N : Nat) (rs : MockResponse)
    (hwerr : ∀ r e, when r (some e) = true)
    (hwresp : ∀ r, r.ok = false → when (some r) none = true)
    (hfail : ∀ i, 1 ≤ i → i ≤ N → attemptFails (t i) = true)
    (hsucc : t (N + 1) = TransportOutcome.resp rs) :
    ∀ m j (r0 : Option MockResponse) (e0 : Option Nat), j + m = N →
      (enhanceRetryLoop t when N (m + 1) ⟨j, j, r0, e0, j, j⟩).invocations = N + 1 ∧
      (enhanceRetryLoop t when N (m + 1) ⟨j, j, r0, e0, j, j⟩).retriesGlobal = N ∧
      (enhanceRetryLoop t when N (m + 1) ⟨j, j, r0, e0, j, j⟩).retriesLocal = N ∧
      (enhanceRetryLoop t when N (m + 1) ⟨j, j, r0, e0, j, j⟩).response = some rs ∧
      (enhanceRetryLoop t when N (m + 1) ⟨j, j, r0, e0, j, j⟩).error = none := by
  intro m
  induction m with
  | zero =>
      intro j r0 e0 hjm
      have hjN : j = N := by omega
      subst hjN
      have hstep : stepOnce t ⟨j, j, r0, e0, j, j⟩ = ⟨j + 1, j, some rs, none, j, j⟩ := by
        simp [stepOnce, hsucc]
      by_cases hw : when (some rs) none = false
      · have hres : enhanceRetryLoop t when j (0 + 1) ⟨j, j, r0, e0, j, j⟩ =
            ⟨j + 1, j, some rs, none, j, j⟩ := by
          rw [enhanceRetryLoop_succ]
          simp only [hstep]
          simp [hw]
        rw [hres]
        exact ⟨rfl, rfl, rfl, rfl, rfl⟩
      · have hw' : when (some rs) none = true := by
          cases h : when (some rs) none
          · exact absurd h hw
          · rfl
        have hres : enhanceRetryLoop t when j (0 + 1) ⟨j, j, r0, e0, j, j⟩ =
            ⟨j + 1, j + 1, some rs, none, j, j⟩ := by
          rw [enhanceRetryLoop_succ]
          simp only [hstep]
          simp [hw', Nat.lt_succ_self]
        rw [hres]
        exact ⟨rfl, rfl, rfl, rfl, rfl⟩
  | succ m ih =>
      intro j r0 e0 hjm
      have hj1 : j + 1 ≤ N := by omega
      have hfj := hfail (j + 1) (by omega) hj1
      have hnotgt : ¬ (j + 1 > N) := by omega
      cases ht : t (j + 1) with
      | resp r =>
          have hrok : r.ok = false := by
            rw [ht] at hfj
            simpa [attemptFails] using hfj
          have hstep : stepOnce t ⟨j, j, r0, e0, j, j⟩ =
              ⟨j + 1, j, some r, none, j, j⟩ := by
            simp [stepOnce, ht]
          have hres : enhanceRetryLoop t when N (m + 1 + 1) ⟨j, j, r0, e0, j, j⟩ =
              enhanceRetryLoop t when N (m + 1)
                ⟨j + 1, j + 1, some r, none, j + 1, j + 1⟩ := by
            rw [enhanceRetryLoop_succ]
            simp only [hstep]
            simp [hwresp r hrok, hnotgt]
          rw [hres]
          exact ih (j + 1) (some r) none (by omega)
      | thrown e =>
          have hstep : stepOnce t ⟨j, j, r0, e0, j, j⟩ =
              ⟨j + 1, j, r0, some e, j, j⟩ := by
            simp [stepOnce, ht]
          have hres : enhanceRetryLoop t when N (m + 1 + 1) ⟨j, j, r0, e0, j, j⟩ =
              enhanceRetryLoop t when N (m + 1)
                ⟨j + 1, j + 1, r0, some e, j + 1, j + 1⟩ := by
            rw [enhanceRetryLoop_succ]
            simp only [hstep]
            simp [hwerr r0 e, hnotgt]
          rw [hres]
          exact ih (j + 1) r0 (some e) (by omega)

/-- C3: for every `N ≥ 1`, every transport that fails the first `N`
invocations — with thrown errors or non-ok responses, in any mix — and
succeeds on the next one, and every retry-when predicate that holds for a
failed attempt (true on every thrown-error context and on every
non-ok-response context the loop can present), a call with
`retry.attempts = N` succeeds: the transport is invoked exactly `N + 1`
times and each of the two registered `onRetry` hooks fires exactly `N`
times, once before each re-attempt. -/
theorem c3_retry_attempts_exact (t : Nat → TransportOutcome)
    (when : Option MockResponse → Option Nat → Bool) (N : Nat) (rs : MockResponse)
    (hN : 1 ≤ N)
    (hwerr : ∀ r e, when r (some e) = true)
    (hwresp : ∀ r, r.ok = false → when (some r) none = true)
    (hfail : ∀ i, 1 ≤ i → i ≤ N → attemptFails (t i) = true)
    (hsucc : t (N + 1) = TransportOutcome.resp rs) (hok : rs.ok = true) :
    (runEnhanceLoop t when N).invocations = N + 1 ∧
    (runEnhanceLoop t when N).retriesGlobal = N ∧
    (runEnhanceLoop t when N).retriesLocal = N ∧
    classifyLoop (runEnhanceLoop t when N) = CallOutcome.success (some rs) := by
  have hrun : runEnhanceLoop t when N =
      enhanceRetryLoop t when N (N + 1) ⟨0, 0, none, none, 0, 0⟩ := rfl
  obtain ⟨h1, h2, h3, h4, h5⟩ :=
    c3_loop_invariant t when N rs hwerr hwresp hfail hsucc N 0 none none (by omega)
  rw [hrun]
  refine ⟨h1, h2, h3, ?_⟩
  simp [classifyLoop, h4, h5, fallbackReject, hok]

/-- Witness for C3 at `N = 2` with a transport mixing both failure kinds
(non-ok response, then a thrown error, then success) and a non-default
predicate that holds on every failed-attempt context: three transport
invocations, two retry events, successful outcome. -/
theorem c3_witness :
    (runEnhanceLoop staleTransport
      (fun r e => e.isSome ||
        (match r with | some resp => !resp.ok | none => false)) 2).invocations =
      2 + 1 ∧
    (runEnhanceLoop staleTransport
      (fun r e => e.isSome ||
        (match r with | some resp => !resp.ok | none => false)) 2).retriesGlobal = 2 ∧
    (runEnhanceLoop staleTransport
      (fun r e => e.isSome ||
        (match r with | some resp => !resp.ok | none => false)) 2).retriesLocal = 2 ∧
    classifyLoop (runEnhanceLoop staleTransport
      (fun r e => e.isSome ||
        (match r with | some resp => !resp.ok | none => false)) 2) =
      CallOutcome.success (some ⟨true, 200⟩) := by
  refine c3_retry_attempts_exact staleTransport _ 2 ⟨true, 200⟩ (by omega)
    (fun r e => rfl) (fun r h => by simp [h]) ?_ (by decide) rfl
  intro i h1 h2
  interval_cases i <;> decide

-- --- Header lookup lemmas ---

/-- Lookup after removing a key. -/
theorem hLookup_hRemove (r : Hdr) (k k' : String) :
    hLookup (hRemove r k) k' = if k' = k then none else hLookup r k' := by
  induction r with
  | nil => by_cases hk : k' = k <;> simp [hRemove, hLookup, hk]
  | cons p t ih =>
      by_cases hk : k' = k
      · subst hk
        by_cases hpk : p.1 = k' <;> simp [hRemove, hLookup, hpk] <;> simpa using ih
      · by_cases hpk : p.1 = k
        · have hpk' : ¬ (p.1 = k') := by
            rw [hpk]; exact fun h => hk h.symm
          have hkk' : ¬ (k = k') := fun h => hk h.symm
          simp [hRemove, hLookup, hpk, hpk', hk, hkk', ih]
        · by_cases hpk' : p.1 = k' <;> simp [hRemove, hLookup, hpk, hpk', hk, ih]

/-- Lookup after appending a single entry at the end. -/
theorem hLookup_append_single (r : Hdr) (k v k' : String) :
    hLookup (r ++ [(k, v)]) k' =
      match hLookup r k' with
      | some x => some x
      | none => if k' = k then some v else none := by
  induction r with
  | nil =>
      by_cases hk : k = k'
      · simp [hLookup, hk]
      · have hk' : ¬ (k' = k) := fun h => hk h.symm
        simp [hLookup, hk, hk']
  | cons p t ih =>
      by_cases hpk' : p.1 = k' <;> simp [hLookup, hpk', ih]

/-- Lookup after processing one `(name, value)` pair: that pair decides the
lookup of its own (lowercased) key — deleting it for the sentinel values,
storing it otherwise — and leaves every other key unchanged. -/
theorem hLookup_applyHeaderEntry (r : Hdr) (e : String × String) (k' : String) :
    hLookup (applyHeaderEntry r e) k' =
      if lowerKey e.1 = k' then sentinelFilter e.2 else hLookup r k' := by
  by_cases hs : e.2 = "null" ∨ e.2 = "undefined"
  · rw [show applyHeaderEntry r e = hRemove r (lowerKey e.1) from by
      simp [applyHeaderEntry, hs]]
    rw [hLookup_hRemove]
    by_cases hk : lowerKey e.1 = k'
    · simp [hk, sentinelFilter, hs]
    · rw [if_neg (fun h => hk h.symm), if_neg hk]
  · rw [show applyHeaderEntry r e = hRemove r (lowerKey e.1) ++ [(lowerKey e.1, e.2)] from by
      simp [applyHeaderEntry, hs]]
    rw [hLookup_append_single, hLookup_hRemove]
    by_cases hk : lowerKey e.1 = k'
    · simp [hk, sentinelFilter, hs]
    · have hk' : ¬ (k' = lowerKey e.1) := fun h => hk h.symm
      rw [if_neg hk', if_neg hk]
      cases hLookup r k' <;> simp [hk']

/-- Lookup after folding a whole init into the accumulated record: the last
entry of the init affecting the key decides it (sentinels deleting); if no
entry affects it, the previously accumulated record decides. -/
theorem hLookup_mergeHeadersOne (init : Hdr) :
    ∀ (r : Hdr) (k : String),
      hLookup (mergeHeadersOne r init) k =
        match lastVal init k with
        | some v => sentinelFilter v
        | none => hLookup r k := by
  induction init with
  | nil => intro r k; simp [mergeHeadersOne, lastVal]
  | cons e t ih =>
      intro r k
      have hfold : mergeHeadersOne r (e :: t) = mergeHeadersOne (applyHeaderEntry r e) t :=
        rfl
      rw [hfold, ih]
      cases hlv : lastVal t k with
      | some v => simp [lastVal, hlv]
      | none =>
          simp only [lastVal, hlv]
          rw [hLookup_applyHeaderEntry]
          by_cases hk : lowerKey e.1 = k <;> simp [hk]

/-- Lookup in the three-init merge performed by `enhance`: the per-call
headers decide first, then the default headers, then the inferred
content-type init. -/
theorem hLookup_mergeHeaders3 (a b c : Hdr) (k : String) :
    hLookup (mergeHeaders [a, b, c]) k =
      match lastVal c k with
      | some v => sentinelFilter v
      | none =>
          match lastVal b k with
          | some v => sentinelFilter v
          | none =>
              match lastVal a k with
              | some v => sentinelFilter v
              | none => none := by
  have h : mergeHeaders [a, b, c] =
      mergeHeadersOne (mergeHeadersOne (mergeHeadersOne [] a) b) c := rfl
  rw [h, hLookup_mergeHeadersOne, hLookup_mergeHeadersOne, hLookup_mergeHeadersOne]
  cases lastVal c k <;> cases lastVal b k <;> cases lastVal a k <;>
    simp [hLookup]

-- --- C5 (corrected) ---

/-- C5 counterexample: a plain string body is non-null, is not `FormData`,
and the default body serializer produces a string from it (the string
itself), yet no `content-type: application/json` header is set — the code
additionally requires the raw body to be serializable (plain object, array
or `toJSON`-carrying object), which a string is not. -/
theorem c5_counterexample :
    computeBody serializeBody (some (BodyVal.str "hello")) =
      some (SerializedVal.sStr "hello") ∧
    BodyVal.str "hello" ≠ BodyVal.formData ∧
    isSerializable (BodyVal.str "hello") = false ∧
    hLookup (buildHeaders (some (BodyVal.str "hello"))
      (computeBody serializeBody (some (BodyVal.str "hello"))) [] [])
      "content-type" = none := by
  decide

/-- C5 amended: when the merged headers contain no content-type entry, a
non-null, non-`FormData` body that is *serializable* (plain object, array,
or `toJSON`-carrying — the extra condition the code imposes) and serializes
to a string yields the header `content-type: application/json`; a
`FormData` body never sets a content-type automatically; and an explicit
non-sentinel content-type supplied by the caller (or, failing that, by the
base configuration) is used unchanged. -/
theorem c5_amended_content_type_inference (b : BodyVal) (sv : String)
    (body : Option SerializedVal) (dh fh : Hdr) (v : String) :
    (isSerializable b = true →
      lastVal dh "content-type" = none → lastVal fh "content-type" = none →
      hLookup (buildHeaders (some b) (some (SerializedVal.sStr sv)) dh fh)
        "content-type" = some "application/json") ∧
    (lastVal dh "content-type" = none → lastVal fh "content-type" = none →
      hLookup (buildHeaders (some BodyVal.formData) body dh fh) "content-type" = none) ∧
    (lastVal fh "content-type" = some v → v ≠ "null" → v ≠ "undefined" →
      hLookup (buildHeaders (some b) body dh fh) "content-type" = some v) ∧
    (lastVal fh "content-type" = none → lastVal dh "content-type" = some v →
      v ≠ "null" → v ≠ "undefined" →
      hLookup (buildHeaders (some b) body dh fh) "content-type" = some v) := by
  refine ⟨?_, ?_, ?_, ?_⟩
  · intro hser hdh hfh
    have hbf : b ≠ BodyVal.formData := by
      intro h; rw [h] at hser; simp [isSerializable] at hser
    have hct : inferredCTInit (some b) (some (SerializedVal.sStr sv)) =
        [("content-type", "application/json")] := by
      simp [inferredCTInit, hbf, hser]
    unfold buildHeaders
    rw [hLookup_mergeHeaders3, hfh, hdh, hct]
    rfl
  · intro hdh hfh
    have hct : inferredCTInit (some BodyVal.formData) body = [] := by
      simp [inferredCTInit]
    unfold buildHeaders
    rw [hLookup_mergeHeaders3, hfh, hdh, hct]
    rfl
  · intro hfh hv1 hv2
    unfold buildHeaders
    rw [hLookup_mergeHeaders3, hfh]
    simp [sentinelFilter, hv1, hv2]
  · intro hfh hdh hv1 hv2
    unfold buildHeaders
    rw [hLookup_mergeHeaders3, hfh, hdh]
    simp [sentinelFilter, hv1, hv2]

/-- Witness for the amended C5: a serializable object body gets the JSON
content-type, a `FormData` body gets none, and an explicit caller header
(an uppercase name, normalised on merge) wins. -/
theorem c5_witness :
    hLookup (buildHeaders (some (BodyVal.obj 1))
      (some (SerializedVal.sStr "json-obj-1")) [] []) "content-type" =
      some "application/json" ∧
    hLookup (buildHeaders (some BodyVal.formData) (some SerializedVal.sForm) [] [])
      "content-type" = none ∧
    hLookup (buildHeaders (some (BodyVal.obj 1)) none []
      [("Content-Type", "text/plain")]) "content-type" = some "text/plain" :=
  ⟨(c5_amended_content_type_inference (BodyVal.obj 1) "json-obj-1" none [] [] "x").1
      (by decide) (by decide) (by decide),
   (c5_amended_content_type_inference (BodyVal.obj 1) "x" (some SerializedVal.sForm)
      [] [] "x").2.1 (by decide) (by decide),
   (c5_amended_content_type_inference (BodyVal.obj 1) "x" none []
      [("Content-Type", "text/plain")] "text/plain").2.2.1 (by decide) (by decide)
      (by decide)⟩

-- --- replaceToken lemmas (C7) ---

/-- The scan result does not depend on the fuel, as long as the fuel covers
the text length. -/
theorem replaceTokenGo_fuel (k v : List Char) :
    ∀ fuel₁ (s : List Char) (fuel₂ : Nat), s.length ≤ fuel₁ → s.length ≤ fuel₂ →
      replaceTokenGo k v fuel₁ s = replaceTokenGo k v fuel₂ s := by
  intro fuel₁
  induction fuel₁ with
  | zero =>
      intro s fuel₂ h1 h2
      have hs : s = [] := List.eq_nil_of_length_eq_zero (by omega)
      subst hs
      cases fuel₂ <;> rfl
  | succ f ih =>
      intro s fuel₂ h1 h2
      cases s with
      | nil => cases fuel₂ <;> rfl
      | cons c s' =>
          cases fuel₂ with
          | zero => simp at h2
          | succ f₂ =>
              simp only [replaceTokenGo]
              by_cases hc : c = ':' ∧ begins k s' = true ∧
                  boundaryAfter k (s'.drop k.length) = true
              · rw [if_pos hc, if_pos hc,
                  ih (s'.drop k.length) f₂
                    (by simp only [List.length_drop, List.length_cons] at *; omega)
                    (by simp only [List.length_drop, List.length_cons] at *; omega)]
              · rw [if_neg hc, if_neg hc,
                  ih s' f₂ (by simp at h1; omega) (by simp at h2; omega)]

/-- A match at the head of the text consumes the token and emits the value. -/
theorem replaceToken_cons_match {k v : List Char} {c : Char} {s : List Char}
    (h : c = ':' ∧ begins k s = true ∧ boundaryAfter k (s.drop k.length) = true) :
    replaceToken k v (c :: s) = v ++ replaceToken k v (s.drop k.length) := by
  unfold replaceToken
  show replaceTokenGo k v (s.length + 1) (c :: s) = _
  simp only [replaceTokenGo]
  rw [if_pos h]
  congr 1
  exact replaceTokenGo_fuel k v s.length (s.drop k.length) (s.drop k.length).length
    (by simp [List.length_drop]) le_rfl

/-- A non-match at the head of the text moves the scan one character. -/
theorem replaceToken_cons_nomatch {k v : List Char} {c : Char} {s : List Char}
    (h : ¬ (c = ':' ∧ begins k s = true ∧ boundaryAfter k (s.drop k.length) = true)) :
    replaceToken k v (c :: s) = c :: replaceToken k v s := by
  unfold replaceToken
  show replaceTokenGo k v (s.length + 1) (c :: s) = _
  simp only [replaceTokenGo]
  rw [if_neg h]

/-- The scan passes through a colon-free chunk unchanged. -/
theorem replaceToken_append_colonFree (k v : List Char) :
    ∀ (a b : List Char), ':' ∉ a →
      replaceToken k v (a ++ b) = a ++ replaceToken k v b := by
  intro a
  induction a with
  | nil => intro b _; simp
  | cons c a' ih =>
      intro b hc
      have hcne : ¬ (c = ':') := by
        intro h; exact hc (by rw [h]; exact List.mem_cons_self ':' a')
      rw [List.cons_append,
        replaceToken_cons_nomatch (fun hcond => hcne hcond.1),
        ih b (fun h => hc (List.mem_cons_of_mem c h))]
      rfl

/-- `begins` holds on any extension of the run itself. -/
theorem begins_append_self (k t : List Char) : begins k (k ++ t) = true := by
  induction k with
  | nil => rfl
  | cons a k' ih => simp [begins, ih]

/-- A successful `begins` exposes the split of the text. -/
theorem begins_implies_exists {k s : List Char} (h : begins k s = true) :
    ∃ t, s = k ++ t := by
  induction k generalizing s with
  | nil => exact ⟨s, rfl⟩
  | cons a k' ih =>
      cases s with
      | nil => simp [begins] at h
      | cons b s' =>
          simp only [begins, Bool.and_eq_true, beq_iff_eq] at h
          obtain ⟨t, ht⟩ := ih h.2
          exact ⟨t, by rw [h.1, ht]; rfl⟩

/-- `wordChar ':' = false`. -/
theorem wordChar_colon : wordChar ':' = false := by decide

/-- For a non-empty all-word-character key the `\b` boundary after the key
reduces to the next character being absent or a non-word character. -/
theorem boundaryAfter_of_wordKey {k : List Char} (hk0 : k ≠ [])
    (hkw : ∀ c ∈ k, wordChar c = true) (rest : List Char) :
    boundaryAfter k rest =
      (match rest with | [] => true | c :: _ => !wordChar c) := by
  unfold boundaryAfter
  rw [List.getLast?_eq_getLast k hk0]
  have hlw : wordChar (k.getLast hk0) = true := hkw _ (List.getLast_mem hk0)
  cases rest with
  | nil => simp [hlw]
  | cons c r => simp [hlw]

/-- The scan replaces a well-delimited token occurrence at the head of the
text and continues after it. -/
theorem replaceToken_token_head (k v b : List Char) (hk0 : k ≠ [])
    (hkw : ∀ c ∈ k, wordChar c = true)
    (hb : b = [] ∨ ∃ c t, b = c :: t ∧ wordChar c = false) :
    replaceToken k v ((':' :: k) ++ b) = v ++ replaceToken k v b := by
  have hcond : (':' : Char) = ':' ∧ begins k (k ++ b) = true ∧
      boundaryAfter k ((k ++ b).drop k.length) = true := by
    refine ⟨rfl, begins_append_self k b, ?_⟩
    rw [List.drop_left, boundaryAfter_of_wordKey hk0 hkw]
    rcases hb with rfl | ⟨c, t, rfl, hcw⟩
    · simp
    · simp [hcw]
  rw [show (':' :: k) ++ b = ':' :: (k ++ b) from rfl,
    replaceToken_cons_match hcond, List.drop_left]

/-- The scan passes over a token of a *different* name unchanged: the key
cannot match there because either the characters differ, or the word
boundary fails (a shorter key would be followed by a word character of the
longer name; a longer key would have to continue into the non-word text
after the name). -/
theorem replaceToken_token_skip (k v n b : List Char) (hk0 : k ≠ [])
    (hkw : ∀ c ∈ k, wordChar c = true) (hn0 : n ≠ [])
    (hnw : ∀ c ∈ n, wordChar c = true) (hne : n ≠ k)
    (hb : b = [] ∨ ∃ c t, b = c :: t ∧ wordChar c = false) :
    replaceToken k v ((':' :: n) ++ b) = (':' :: n) ++ replaceToken k v b := by
  have hnomatch : ¬ ((':' : Char) = ':' ∧ begins k (n ++ b) = true ∧
      boundaryAfter k ((n ++ b).drop k.length) = true) := by
    rintro ⟨-, hbg, hbd⟩
    obtain ⟨t, ht⟩ := begins_implies_exists hbg
    rcases Nat.lt_trichotomy k.length n.length with hlt | heq | hgt
    · -- k is a strict prefix of n: boundary fails on the next name character
      have hdrop : (n ++ b).drop k.length = n.drop k.length ++ b := by
        rw [List.drop_append_eq_append_drop,
          Nat.sub_eq_zero_of_le hlt.le, List.drop_zero]
      have hne' : n.drop k.length ≠ [] := by
        rw [ne_eq, List.drop_eq_nil_iff]
        omega
      obtain ⟨c, t', hct⟩ := List.exists_cons_of_ne_nil hne'
      have hcw : wordChar c = true := by
        refine hnw c (List.drop_subset k.length n ?_)
        rw [hct]; exact List.mem_cons_self c t'
      rw [boundaryAfter_of_wordKey hk0 hkw, hdrop, hct] at hbd
      simp [hcw] at hbd
    · -- equal lengths force k = n
      have : n = k ∧ b = t := List.append_inj ht heq.symm
      exact hne this.1
    · -- n is a strict prefix of k: the key would continue into `b`,
      -- which is empty or starts with a non-word character
      have hdropb : b = k.drop n.length ++ t := by
        have h1 := congrArg (List.drop n.length) ht
        rw [List.drop_left] at h1
        rw [h1, List.drop_append_eq_append_drop,
          Nat.sub_eq_zero_of_le hgt.le, List.drop_zero]
      have hne' : k.drop n.length ≠ [] := by
        rw [ne_eq, List.drop_eq_nil_iff]
        omega
      obtain ⟨c, t', hct⟩ := List.exists_cons_of_ne_nil hne'
      have hcw : wordChar c = true := by
        refine hkw c (List.drop_subset n.length k ?_)
        rw [hct]; exact List.mem_cons_self c t'
      rcases hb with rfl | ⟨c₀, t₀, hb₀, hc₀⟩
      · rw [hct] at hdropb
        simp at hdropb
      · rw [hb₀, hct] at hdropb
        have hcc : c₀ = c := by
          have := congrArg (fun l => l.head?) hdropb
          simpa using this
        rw [hcc] at hc₀
        rw [hc₀] at hcw
        cases hcw
  rw [show (':' :: n) ++ b = ':' :: (n ++ b) from rfl,
    replaceToken_cons_nomatch hnomatch]
  have hncolon : ':' ∉ n := by
    intro hmem
    have := hnw ':' hmem
    rw [wordChar_colon] at this
    cases this
  rw [replaceToken_append_colonFree k v n b hncolon]
  rfl

/-- Rendering a cons of pieces. -/
theorem renderPath_cons (p : PathPiece) (ps : List PathPiece) :
    renderPath (p :: ps) = renderPiece p ++ renderPath ps := rfl

/-- A well-started tail renders to the empty text or to text starting with
a non-word character. -/
theorem startsNonWordOrEnd_render (r : List PathPiece)
    (h : startsNonWordOrEnd r = true) :
    renderPath r = [] ∨ ∃ c t, renderPath r = c :: t ∧ wordChar c = false := by
  cases r with
  | nil => left; rfl
  | cons p r' =>
      cases p with
      | lit s =>
          cases s with
          | nil => simp [startsNonWordOrEnd] at h
          | cons c t =>
              right
              refine ⟨c, t ++ renderPath r', ?_, ?_⟩
              · rw [renderPath_cons]; rfl
              · simpa [startsNonWordOrEnd] using h
      | tok n => simp [startsNonWordOrEnd] at h

/-- One `replace` call on a rendered well-formed path substitutes exactly
the token pieces of that name, leaving everything else unchanged. -/
theorem replaceToken_renderPath (k v : List Char) (hk0 : k ≠ [])
    (hkw : ∀ c ∈ k, wordChar c = true) :
    ∀ ps, piecesWF ps = true →
      replaceToken k v (renderPath ps) = renderPath (ps.map (substTok k v)) := by
  intro ps
  induction ps with
  | nil => intro _; rfl
  | cons p r ih =>
      intro hwf
      cases p with
      | lit s =>
          simp only [piecesWF, Bool.and_eq_true, decide_eq_true_eq] at hwf
          rw [renderPath_cons]
          show replaceToken k v (s ++ renderPath r) = _
          rw [replaceToken_append_colonFree k v s _ hwf.1, ih hwf.2]
          simp [substTok, renderPath_cons, renderPiece]
      | tok n =>
          simp only [piecesWF, Bool.and_eq_true, decide_eq_true_eq,
            List.all_eq_true] at hwf
          obtain ⟨⟨⟨hn0, hnw⟩, hstart⟩, hwfr⟩ := hwf
          have hb := startsNonWordOrEnd_render r hstart
          rw [renderPath_cons]
          show replaceToken k v ((':' :: n) ++ renderPath r) = _
          by_cases hnk : n = k
          · subst hnk
            rw [replaceToken_token_head n v (renderPath r) hn0 hnw hb, ih hwfr]
            simp [substTok, renderPath_cons, renderPiece]
          · rw [replaceToken_token_skip k v n (renderPath r) hk0 hkw hn0 hnw hnk hb,
              ih hwfr]
            simp [substTok, renderPath_cons, renderPiece, hnk]

/-- Substituting a token preserves the well-started property of a tail. -/
theorem startsNonWordOrEnd_substTok (k v : List Char) (r : List PathPiece)
    (h : startsNonWordOrEnd r = true) :
    startsNonWordOrEnd (r.map (substTok k v)) = true := by
  cases r with
  | nil => rfl
  | cons p r' =>
      cases p with
      | lit s =>
          cases s with
          | nil => simp [startsNonWordOrEnd] at h
          | cons c t => simpa [substTok, startsNonWordOrEnd] using h
      | tok n => simp [startsNonWordOrEnd] at h

/-- Substituting a token with a colon-free value preserves well-formedness. -/
theorem piecesWF_substTok (k v : List Char) (hv : ':' ∉ v) :
    ∀ ps, piecesWF ps = true → piecesWF (ps.map (substTok k v)) = true := by
  intro ps
  induction ps with
  | nil => intro _; rfl
  | cons p r ih =>
      intro hwf
      cases p with
      | lit s =>
          simp only [piecesWF, Bool.and_eq_true, decide_eq_true_eq] at hwf
          simp [substTok, piecesWF, hwf.1, ih hwf.2]
      | tok n =>
          simp only [piecesWF, Bool.and_eq_true, decide_eq_true_eq,
            List.all_eq_true] at hwf
          obtain ⟨⟨⟨hn0, hnw⟩, hstart⟩, hwfr⟩ := hwf
          by_cases hnk : n = k
          · simp [substTok, hnk, piecesWF, hv, ih hwfr]
          · simp [substTok, hnk, piecesWF, hn0,
              startsNonWordOrEnd_substTok k v r hstart, ih hwfr]
            exact hnw

/-- Simultaneous substitution with no parameters is the identity. -/
theorem substPiece_nil (ps : List PathPiece) : ps.map (substPiece []) = ps := by
  induction ps with
  | nil => rfl
  | cons p r ih => cases p <;> simp [substPiece, lookupParam, ih]

/-- A null-valued entry does not contribute to simultaneous substitution. -/
theorem substPiece_skip_none (key : String) (rest : List (String × Option String))
    (ps : List PathPiece) :
    ps.map (substPiece ((key, none) :: rest)) = ps.map (substPiece rest) := by
  induction ps with
  | nil => rfl
  | cons p r ih => cases p <;> simp [substPiece, lookupParam, ih]

/-- Applying one key at the piece level and then the remaining parameters
equals simultaneous substitution with the full entry list. -/
theorem substTok_then_rest (key v : String) (rest : List (String × Option String)) :
    ∀ ps : List PathPiece,
      (ps.map (substTok key.data v.data)).map (substPiece rest) =
        ps.map (substPiece ((key, some v) :: rest)) := by
  intro ps
  induction ps with
  | nil => rfl
  | cons p r ih =>
      cases p with
      | lit s => simp only [List.map_cons, substTok, substPiece, ih]
      | tok n =>
          by_cases hnk : n = key.data
          · simp [substTok, substPiece, lookupParam, hnk, ih]
          · have hkn : ¬ (key.data = n) := fun h => hnk h.symm
            simp [substTok, substPiece, lookupParam, hnk, hkn, ih]

/-- `replacePathParams` on a rendered well-formed path with word-character
keys and colon-free values is simultaneous per-token substitution. -/
theorem replacePathParams_renderPath (params : List (String × Option String)) :
    ∀ ps, piecesWF ps = true →
      (∀ kv ∈ params, kv.1.data ≠ [] ∧ (∀ c ∈ kv.1.data, wordChar c = true) ∧
        (match kv.2 with | some v => ':' ∉ v.data | none => True)) →
      replacePathParams (renderPath ps) params =
        renderPath (ps.map (substPiece params)) := by
  induction params with
  | nil => intro ps _ _; simp [replacePathParams, substPiece_nil]
  | cons kv rest ih =>
      intro ps hwf hks
      obtain ⟨key, val⟩ := kv
      cases val with
      | none =>
          have hstep : replacePathParams (renderPath ps) ((key, none) :: rest) =
              replacePathParams (renderPath ps) rest := rfl
          rw [hstep, ih ps hwf (fun kv h => hks kv (List.mem_cons_of_mem _ h)),
            substPiece_skip_none]
      | some v =>
          have hk := hks (key, some v) (List.mem_cons_self _ _)
          have hstep : replacePathParams (renderPath ps) ((key, some v) :: rest) =
              replacePathParams (replaceToken key.data v.data (renderPath ps)) rest :=
            rfl
          rw [hstep, replaceToken_renderPath key.data v.data hk.1 hk.2.1 ps hwf,
            ih (ps.map (substTok key.data v.data))
              (piecesWF_substTok key.data v.data hk.2.2 ps hwf)
              (fun kv h => hks kv (List.mem_cons_of_mem _ h)),
            substTok_then_rest]

-- --- C7 (corrected) ---

/-- C7 counterexample: substitution is sequential per map entry, so a
substituted value can destroy the word boundary of a still-pending token.
For the path `:a:k` (both `:a` and `:k` are tokens with a word boundary in
the original path) and the entries `k ↦ 7`, `a ↦ 5` (in that order), the
code yields `:a7` — the token `:a`, although mapped to the non-null value
`5`, is neither replaced nor left as literal text with its boundary intact,
where per-token substitution as the claim states it would yield `57`. -/
theorem c7_counterexample :
    hasToken "a".data (renderPath [PathPiece.tok "a".data, PathPiece.tok "k".data]) =
      true ∧
    lookupParam [("k", some "7"), ("a", some "5")] "a".data = some "5" ∧
    replacePathParams (renderPath [PathPiece.tok "a".data, PathPiece.tok "k".data])
      [("k", some "7"), ("a", some "5")] = ":a7".data ∧
    renderPath ([PathPiece.tok "a".data, PathPiece.tok "k".data].map
      (substPiece [("k", some "7"), ("a", some "5")])) = "57".data ∧
    (":a7".data : List Char) ≠ "57".data := by
  decide

/-- C7 amended: on paths whose tokens are well delimited (each `:name` token
has a non-empty word-character name and is followed by the end of the path
or by literal text starting with a non-word character, literal chunks are
colon-free) and parameter values that introduce no `:`, substitution
replaces every occurrence of each `:name` token whose entry value is
non-null by that value, leaves every token with no entry or a null-valued
entry in the path as literal text, and an entry list whose values are all
null is a no-op on any path rather than an error. -/
theorem c7_amended_path_substitution (ps : List PathPiece)
    (params : List (String × Option String)) (hwf : piecesWF ps = true)
    (hks : ∀ kv ∈ params, kv.1.data ≠ [] ∧ (∀ c ∈ kv.1.data, wordChar c = true) ∧
      (match kv.2 with | some v => ':' ∉ v.data | none => True)) :
    replacePathParams (renderPath ps) params =
      renderPath (ps.map (substPiece params)) ∧
    (∀ (path : List Char) (qs : List (String × Option String)),
      (∀ kv ∈ qs, kv.2 = none) → replacePathParams path qs = path) := by
  refine ⟨replacePathParams_renderPath params ps hwf hks, ?_⟩
  intro path qs
  induction qs with
  | nil => intro _; rfl
  | cons kv rest ih =>
      intro hqs
      obtain ⟨kk, vv⟩ := kv
      have h0 : vv = none := hqs (kk, vv) (List.mem_cons_self _ _)
      subst h0
      have hstep : replacePathParams path ((kk, none) :: rest) =
          replacePathParams path rest := rfl
      rw [hstep]
      exact ih (fun kv h => hqs kv (List.mem_cons_of_mem _ h))

/-- Witness for the amended C7: the spec's own examples —
`/user/:id` with `id ↦ 7` becomes `/user/7`, and with no matching parameter
the token is preserved. -/
theorem c7_witness :
    replacePathParams (renderPath [PathPiece.lit "/user/".data, PathPiece.tok "id".data])
      [("id", some "7")] = "/user/7".data ∧
    replacePathParams (renderPath [PathPiece.lit "/u/".data, PathPiece.tok "id".data])
      [("other", none)] = "/u/:id".data := by
  have h1 := c7_amended_path_substitution
    [PathPiece.lit "/user/".data, PathPiece.tok "id".data]
    [("id", some "7")] (by decide)
    (by intro kv hkv; fin_cases hkv <;> exact ⟨by decide, by decide, by decide⟩)
  have h2 := c7_amended_path_substitution
    [PathPiece.lit "/u/".data, PathPiece.tok "id".data]
    [("other", none)] (by decide)
    (by intro kv hkv; fin_cases hkv <;> exact ⟨by decide, by decide, by decide⟩)
  constructor
  · rw [h1.1]; decide
  · rw [h2.1]; decide
